import Mathlib

/-!
# Verification of the `recloser` circuit breaker

A shallow embedding of `src/ring_buffer.rs` and `src/recloser.rs`.

Conventions of the embedding:
* The code is lock-based/atomic but every claim is about the sequential
  (mutex-serialized) behaviour, so atomics become plain fields and the
  spin lock disappears; `RingBuffer::set_current` is the whole critical
  section.
* `f32` failure rates become exact rationals (`ℚ`); the sentinel is `-1`.
* Monotonic instants and durations become `Nat` clock ticks.
* A Rust panic (the out-of-bounds slice index `self.ring[i]` reachable
  when `len == 0`) is modelled by returning `none`.
-/

/-- `to_int` from `ring_buffer.rs`: `if b { 1 } else { 0 }`. -/
def to_int (b : Bool) : Nat := if b then 1 else 0

/-- The `RingBuffer` struct of `ring_buffer.rs` (atomics flattened to plain
fields, the spin lock dropped since the embedding is of the serialized
behaviour). -/
structure RingBuffer where
  len : Nat
  ring : List Bool
  card : Nat
  filling : Nat
  index : Nat
deriving Repr, DecidableEq

/-- `RingBuffer::new`: a ring of `len` cells all `false`, zero cardinality,
zero filling, cursor 0.  The Rust constructor body is total (no panic). -/
def RingBuffer.new (len : Nat) : RingBuffer :=
  { len := len
    ring := List.replicate len false
    card := 0
    filling := 0
    index := 0 }

/-- `RingBuffer::set_current`: record one outcome under the lock and return
the failure rate, or the sentinel `-1` while the ring is still filling.
`none` models the panic of the slice access `self.ring[i]` when the index
is out of bounds (reachable exactly when `len == 0`). -/
def RingBuffer.set_current (rb : RingBuffer) (val_new : Bool) : Option (ℚ × RingBuffer) :=
  let i := rb.index
  let j := if i = rb.len - 1 then 0 else i + 1
  if h : i < rb.ring.length then
    let val_old := rb.ring[i]
    let card_new := rb.card - to_int val_old + to_int val_new
    if rb.filling = rb.len then
      some (((card_new : ℚ) / (rb.len : ℚ)),
        { rb with ring := rb.ring.set i val_new, index := j, card := card_new })
    else
      some ((-1 : ℚ),
        { rb with ring := rb.ring.set i val_new, index := j, card := card_new,
                  filling := rb.filling + 1 })
  else none

/-- Run a sequence of outcomes through `set_current`, starting from `rb`,
propagating the panic. -/
def runList (rb : RingBuffer) (l : List Bool) : Option RingBuffer :=
  match l with
  | [] => some rb
  | x :: xs =>
    match rb.set_current x with
    | none => none
    | some (_, rb2) => runList rb2 xs

/-- The last `n` entries of `l` (all of `l` when `l` is shorter). -/
def lastN (n : Nat) (l : List Bool) : List Bool := l.drop (l.length - n)

/-- Closed form for the content of cell `j` after the outcomes `l` have been
recorded in order on a fresh ring of length `len`: the value of the most
recent write to cell `j` (writes go to positions `0, 1, …` cyclically),
`false` if the cell was never written. -/
def cellAt (len : Nat) (l : List Bool) (j : Nat) : Bool :=
  if j < l.length then l.getD (j + len * ((l.length - 1 - j) / len)) false else false

/-- Closed form for the whole ring after recording `l` on a fresh buffer. -/
def cellsOf (len : Nat) (l : List Bool) : List Bool :=
  (List.range len).map (cellAt len l)

/-- Closed form for the full `RingBuffer` state after recording `l` on a
fresh buffer of length `len`. -/
def stateOf (len : Nat) (l : List Bool) : RingBuffer :=
  { len := len
    ring := cellsOf len l
    card := (lastN len l).count true
    filling := min l.length len
    index := l.length % len }

theorem cellsOf_length (len : Nat) (l : List Bool) : (cellsOf len l).length = len := by
  simp [cellsOf]

theorem cellsOf_getElem (len : Nat) (l : List Bool) (j : Nat)
    (hj : j < (cellsOf len l).length) :
    (cellsOf len l)[j] = cellAt len l j := by
  simp [cellsOf]

theorem cellsOf_nil (len : Nat) : cellsOf len [] = List.replicate len false := by
  apply List.ext_getElem
  · simp [cellsOf_length]
  · intro j h1 h2
    rw [cellsOf_getElem len [] j h1]
    simp [cellAt]

theorem stateOf_nil (len : Nat) : stateOf len [] = RingBuffer.new len := by
  simp [stateOf, RingBuffer.new, cellsOf_nil, lastN]

theorem getD_append_length (l : List Bool) (x : Bool) (d : Bool) :
    (l ++ [x]).getD l.length d = x := by
  rw [List.getD_eq_getElem?_getD, List.getElem?_append_right (le_refl _)]
  simp

theorem getD_append_left (l t : List Bool) (i : Nat) (h : i < l.length) (d : Bool) :
    (l ++ t).getD i d = l.getD i d := by
  rw [List.getD_eq_getElem?_getD, List.getElem?_append, if_pos h, List.getD_eq_getElem?_getD]

theorem cellAt_append (len : Nat) (l : List Bool) (x : Bool) (j : Nat) (hj : j < len) :
    cellAt len (l ++ [x]) j = if j = l.length % len then x else cellAt len l j := by
  have hlen : 0 < len := by omega
  unfold cellAt
  simp only [List.length_append, List.length_cons, List.length_nil]
  by_cases hc : j = l.length % len
  · subst hc
    have h1 : l.length % len ≤ l.length := Nat.mod_le _ _
    have h2 : l.length % len < l.length + 1 := by omega
    have hdm : len * (l.length / len) + l.length % len = l.length := Nat.div_add_mod _ _
    have h3 : l.length + 1 - 1 - l.length % len = len * (l.length / len) := by omega
    have h4 : len * (l.length / len) / len = l.length / len :=
      Nat.mul_div_cancel_left _ hlen
    have h5 : l.length % len + len * (l.length / len) = l.length := by omega
    simp only [h2, if_pos, h3, h4, h5, if_pos rfl]
    exact getD_append_length l x false
  · rw [if_neg hc]
    by_cases hjn : j < l.length
    · have hdvd : ¬ len ∣ (l.length - j) := by
        intro ⟨k, hk⟩
        have hn : l.length = j + len * k := by omega
        have : l.length % len = j := by
          rw [hn, Nat.add_mul_mod_self_left, Nat.mod_eq_of_lt hj]
        exact hc this.symm
      have ha : l.length - j = (l.length - 1 - j) + 1 := by omega
      have hdiv : (l.length - 1 - j + 1) / len = (l.length - 1 - j) / len := by
        rw [Nat.succ_div, if_neg (by rw [← ha]; exact hdvd)]
        omega
      have hidx : j + len * ((l.length - 1 - j) / len) < l.length := by
        have := Nat.div_mul_le_self (l.length - 1 - j) len
        have h6 : len * ((l.length - 1 - j) / len) ≤ l.length - 1 - j := by
          calc len * ((l.length - 1 - j) / len) = ((l.length - 1 - j) / len) * len := by ring
          _ ≤ l.length - 1 - j := Nat.div_mul_le_self _ _
        omega
      have h7 : l.length + 1 - 1 - j = (l.length - 1 - j) + 1 := by omega
      rw [if_pos (by omega : j < l.length + 1), if_pos hjn, h7, hdiv]
      exact getD_append_left l [x] _ hidx false
    · have hj1 : ¬ j < l.length + 1 := by
        intro h
        have hje : j = l.length := by omega
        have : l.length % len = l.length := Nat.mod_eq_of_lt (by omega)
        exact hc (by omega)
      rw [if_neg hj1, if_neg hjn]

theorem cellAt_cursor (len : Nat) (hlen : 1 ≤ len) (l : List Bool) :
    cellAt len l (l.length % len)
      = if len ≤ l.length then l.getD (l.length - len) false else false := by
  unfold cellAt
  by_cases hfull : len ≤ l.length
  · have hmod : l.length % len < len := Nat.mod_lt _ (by omega)
    have hdm : len * (l.length / len) + l.length % len = l.length := Nat.div_add_mod _ _
    have hq : 1 ≤ l.length / len := Nat.one_le_div_iff (by omega) |>.mpr hfull
    have h1 : l.length - 1 - l.length % len = len * (l.length / len) - 1 := by omega
    have h2 : len * (l.length / len) = len * (l.length / len - 1) + len := by
      have : l.length / len = (l.length / len - 1) + 1 := by omega
      calc len * (l.length / len) = len * ((l.length / len - 1) + 1) := by rw [← this]
      _ = len * (l.length / len - 1) + len := by ring
    have h3 : len * (l.length / len) - 1 = len * (l.length / len - 1) + (len - 1) := by omega
    have h4 : (len * (l.length / len - 1) + (len - 1)) / len = l.length / len - 1 := by
      rw [Nat.mul_add_div (by omega)]
      have : (len - 1) / len = 0 := Nat.div_eq_of_lt (by omega)
      omega
    have h5 : l.length % len + len * (l.length / len - 1) = l.length - len := by omega
    have h6 : l.length % len < l.length := by omega
    rw [if_pos hfull, if_pos h6, h1, h3, h4, h5]
  · have : l.length % len = l.length := Nat.mod_eq_of_lt (by omega)
    rw [if_neg hfull, this, if_neg (lt_irrefl _)]

theorem to_int_beq (a : Bool) : (if (a == true) = true then 1 else 0) = to_int a := by
  cases a <;> simp [to_int]

theorem count_lastN_full (len : Nat) (hlen : 1 ≤ len) (l : List Bool) (x : Bool)
    (hfull : len ≤ l.length) :
    (lastN len l).count true
        = to_int (l.getD (l.length - len) false) + (l.drop (l.length - len + 1)).count true
      ∧ (lastN len (l ++ [x])).count true
        = (l.drop (l.length - len + 1)).count true + to_int x := by
  have h1 : l.length - len < l.length := by omega
  constructor
  · have hdec : l.drop (l.length - len)
        = l[l.length - len] :: l.drop (l.length - len + 1) :=
      List.drop_eq_getElem_cons h1
    have hget : l.getD (l.length - len) false = l[l.length - len] :=
      List.getD_eq_getElem l false h1
    rw [lastN, hdec, List.count_cons, hget, to_int_beq]
    omega
  · have h2 : (l ++ [x]).length - len = l.length - len + 1 := by simp; omega
    have h3 : (l ++ [x]).drop (l.length - len + 1) = l.drop (l.length - len + 1) ++ [x] :=
      List.drop_append_of_le_length (by omega)
    rw [lastN, h2, h3, List.count_append]
    cases x <;> simp [to_int]

theorem count_lastN_partial (len : Nat) (l : List Bool) (x : Bool)
    (hpart : l.length < len) :
    lastN len l = l ∧ (lastN len (l ++ [x])).count true = l.count true + to_int x := by
  constructor
  · rw [lastN, Nat.sub_eq_zero_of_le (by omega), List.drop_zero]
  · have h2 : (l ++ [x]).length - len = 0 := by simp; omega
    rw [lastN, h2, List.drop_zero, List.count_append]
    cases x <;> simp [to_int]

theorem mod_succ_step (len n : Nat) (hlen : 1 ≤ len) :
    (n + 1) % len = if n % len = len - 1 then 0 else n % len + 1 := by
  have hdm : len * (n / len) + n % len = n := Nat.div_add_mod _ _
  have hmod : n % len < len := Nat.mod_lt _ (by omega)
  by_cases h : n % len = len - 1
  · have h2 : n + 1 = len * (n / len + 1) := by
      have : len * (n / len + 1) = len * (n / len) + len := by ring
      omega
    rw [if_pos h, h2]
    exact Nat.mul_mod_right _ _
  · have h3 : n + 1 = n % len + 1 + len * (n / len) := by omega
    rw [if_neg h, h3, Nat.add_mul_mod_self_left, Nat.mod_eq_of_lt (by omega)]

theorem cellsOf_set (len : Nat) (l : List Bool) (x : Bool) :
    cellsOf len (l ++ [x]) = (cellsOf len l).set (l.length % len) x := by
  apply List.ext_getElem
  · simp [cellsOf_length]
  · intro j h1 h2
    have hj : j < len := by simpa [cellsOf_length] using h1
    have hb : j < (cellsOf len l).length := by simpa [cellsOf_length] using hj
    rw [cellsOf_getElem len (l ++ [x]) j h1, List.getElem_set,
        cellAt_append len l x j hj]
    by_cases hc : j = l.length % len
    · rw [if_pos hc, if_pos hc.symm]
    · rw [if_neg hc, if_neg (fun h => hc h.symm)]
      exact (cellsOf_getElem len l j hb).symm

theorem set_current_stateOf (len : Nat) (hlen : 1 ≤ len) (l : List Bool) (x : Bool) :
    (stateOf len l).set_current x
      = some ((if len ≤ l.length
                then (((lastN len (l ++ [x])).count true : Nat) : ℚ) / (len : ℚ)
                else (-1 : ℚ)),
              stateOf len (l ++ [x])) := by
  have hmod : l.length % len < len := Nat.mod_lt _ (by omega)
  have hbound : l.length % len < (cellsOf len l).length := by
    rw [cellsOf_length]; exact hmod
  have hold : (cellsOf len l)[l.length % len] = cellAt len l (l.length % len) :=
    cellsOf_getElem len l _ hbound
  unfold RingBuffer.set_current
  simp only [stateOf]
  rw [dif_pos hbound]
  have hindex : (if l.length % len = len - 1 then 0 else l.length % len + 1)
      = (l ++ [x]).length % len := by
    simp only [List.length_append, List.length_cons, List.length_nil]
    exact (mod_succ_step len l.length hlen).symm
  by_cases hfull : len ≤ l.length
  · have hfillfull : min l.length len = len := min_eq_right_iff.mpr hfull
    have hcursor : cellAt len l (l.length % len) = l.getD (l.length - len) false := by
      rw [cellAt_cursor len hlen l, if_pos hfull]
    obtain ⟨hcountl, hcountlx⟩ := count_lastN_full len hlen l x hfull
    have hcard : (lastN len l).count true
        - to_int ((cellsOf len l)[l.length % len]) + to_int x
        = (lastN len (l ++ [x])).count true := by
      rw [hold, hcursor]; omega
    have hfill2 : min (l.length + 1) len = len := min_eq_right_iff.mpr (by omega)
    rw [if_pos hfillfull, Option.some_inj, Prod.mk.injEq]
    refine ⟨by rw [if_pos hfull, hcard], ?_⟩
    rw [RingBuffer.mk.injEq]
    refine ⟨rfl, (cellsOf_set len l x).symm, hcard, ?_, hindex⟩
    simp only [List.length_append, List.length_cons, List.length_nil]
    omega
  · have hpart : l.length < len := by omega
    obtain ⟨hlast, hcount⟩ := count_lastN_partial len l x hpart
    have hfill : min l.length len = l.length := min_eq_left_iff.mpr (by omega)
    have hne : ¬ (min l.length len = len) := by omega
    have hcursorF : cellAt len l (l.length % len) = false := by
      rw [cellAt_cursor len hlen l, if_neg hfull]
    have hcard : (lastN len l).count true
        - to_int ((cellsOf len l)[l.length % len]) + to_int x
        = (lastN len (l ++ [x])).count true := by
      rw [hold, hcursorF, hlast, hcount]
      simp [to_int]
    rw [if_neg hne, Option.some_inj, Prod.mk.injEq]
    refine ⟨by rw [if_neg hfull], ?_⟩
    rw [RingBuffer.mk.injEq]
    refine ⟨rfl, (cellsOf_set len l x).symm, hcard, ?_, hindex⟩
    simp only [List.length_append, List.length_cons, List.length_nil]
    omega

theorem runList_append (rb : RingBuffer) (l : List Bool) (x : Bool) :
    runList rb (l ++ [x])
      = (runList rb l).bind (fun s => (s.set_current x).map Prod.snd) := by
  induction l generalizing rb with
  | nil =>
    simp only [List.nil_append, runList]
    cases h : rb.set_current x with
    | none => simp [runList, h]
    | some p => cases p; simp [runList, h]
  | cons y ys ih =>
    simp only [List.cons_append, runList]
    cases h : rb.set_current y with
    | none => simp
    | some p =>
      cases p
      exact ih _

theorem runList_stateOf (len : Nat) (hlen : 1 ≤ len) (l : List Bool) :
    runList (RingBuffer.new len) l = some (stateOf len l) := by
  induction l using List.reverseRecOn with
  | nil => rw [runList, stateOf_nil]
  | append_singleton ys y ih =>
    rw [runList_append, ih, Option.some_bind, set_current_stateOf len hlen ys y,
        Option.map_some']

theorem count_lastN_le (len : Nat) (l : List Bool) : (lastN len l).count true ≤ len := by
  have h1 : (lastN len l).count true ≤ (lastN len l).length := List.count_le_length _ _
  have h2 : (lastN len l).length = l.length - (l.length - len) := by
    rw [lastN, List.length_drop]
  omega

/-- C1: on a fresh `RingBuffer` of length `L ≥ 1`, recording outcomes
sequentially through `set_current`: every call made after at least `L`
records returns exactly `popcount(last L outcomes) / L` (the window
including the outcome of that very call), a value in `[0, 1]`; every call
made while fewer than `L` records exist returns the sentinel `-1`. -/
theorem c1_ring_rate (len : Nat) (hlen : 1 ≤ len) (l : List Bool) (x : Bool) :
    ∃ rb, runList (RingBuffer.new len) l = some rb ∧
      ((len ≤ l.length →
        ∃ r rb2, rb.set_current x = some (r, rb2) ∧
          r = (((lastN len (l ++ [x])).count true : Nat) : ℚ) / (len : ℚ) ∧
          0 ≤ r ∧ r ≤ 1) ∧
       (l.length < len →
        ∃ rb2, rb.set_current x = some ((-1 : ℚ), rb2))) := by
  refine ⟨stateOf len l, runList_stateOf len hlen l, ?_, ?_⟩
  · intro hfull
    refine ⟨(((lastN len (l ++ [x])).count true : Nat) : ℚ) / (len : ℚ),
            stateOf len (l ++ [x]), ?_, rfl, ?_, ?_⟩
    · rw [set_current_stateOf len hlen l x, if_pos hfull]
    · positivity
    · rw [div_le_one (by exact_mod_cast (by omega : (0:ℕ) < len))]
      exact_mod_cast count_lastN_le len (l ++ [x])
  · intro hpart
    refine ⟨stateOf len (l ++ [x]), ?_⟩
    rw [set_current_stateOf len hlen l x, if_neg (by omega)]

/-- C1 witness: length 2, outcomes `[true, false]` then a `true`:
the third call returns `popcount([false, true]) / 2 = 1/2 ∈ [0, 1]`,
while a call after only one record returns `-1`. -/
theorem c1_ring_rate_witness :
    (1 ≤ 2 ∧ (2 ≤ ([true, false] : List Bool).length) ∧ ([true] : List Bool).length < 2) ∧
    (∃ rb, runList (RingBuffer.new 2) [true, false] = some rb ∧
      ((2 ≤ ([true, false] : List Bool).length →
        ∃ r rb2, rb.set_current true = some (r, rb2) ∧
          r = (((lastN 2 ([true, false] ++ [true])).count true : Nat) : ℚ) / (2 : ℚ) ∧
          0 ≤ r ∧ r ≤ 1) ∧
       (([true, false] : List Bool).length < 2 →
        ∃ rb2, rb.set_current true = some ((-1 : ℚ), rb2)))) ∧
    (∃ rb, runList (RingBuffer.new 2) [true] = some rb ∧
      ((2 ≤ ([true] : List Bool).length →
        ∃ r rb2, rb.set_current false = some (r, rb2) ∧
          r = (((lastN 2 ([true] ++ [false])).count true : Nat) : ℚ) / (2 : ℚ) ∧
          0 ≤ r ∧ r ≤ 1) ∧
       (([true] : List Bool).length < 2 →
        ∃ rb2, rb.set_current false = some ((-1 : ℚ), rb2)))) :=
  ⟨⟨by decide, by decide, by decide⟩,
   c1_ring_rate 2 (by decide) [true, false] true,
   c1_ring_rate 2 (by decide) [true] false⟩

/-- C10: on a fresh `RingBuffer` of length `L ≥ 1`, the `L`-th `set_current`
call (the one completing the window, i.e. after `L - 1` prior records) still
returns `-1`; the call after `L` records is the first to return a numeric
rate; and a returned numeric rate already includes the outcome passed to
that very call (recording `true` instead of `false` raises the returned
rate by exactly `1/L`). -/
theorem c10_first_numeric (len : Nat) (hlen : 1 ≤ len) (l : List Bool) (x : Bool) :
    (l.length = len - 1 →
      ∃ rb rb2, runList (RingBuffer.new len) l = some rb ∧
        rb.set_current x = some ((-1 : ℚ), rb2)) ∧
    (l.length = len →
      ∃ rb r rb2, runList (RingBuffer.new len) l = some rb ∧
        rb.set_current x = some (r, rb2) ∧
        r = (((lastN len (l ++ [x])).count true : Nat) : ℚ) / (len : ℚ) ∧
        (-1 : ℚ) < r) ∧
    (len ≤ l.length →
      ∃ rb rT rbT rF rbF, runList (RingBuffer.new len) l = some rb ∧
        rb.set_current true = some (rT, rbT) ∧
        rb.set_current false = some (rF, rbF) ∧
        rT = rF + 1 / (len : ℚ)) := by
  refine ⟨?_, ?_, ?_⟩
  · intro hlast
    refine ⟨stateOf len l, stateOf len (l ++ [x]), runList_stateOf len hlen l, ?_⟩
    rw [set_current_stateOf len hlen l x, if_neg (by omega)]
  · intro hfull
    refine ⟨stateOf len l, _, stateOf len (l ++ [x]), runList_stateOf len hlen l, ?_, rfl, ?_⟩
    · rw [set_current_stateOf len hlen l x, if_pos (by omega)]
    · have : (0 : ℚ) ≤ (((lastN len (l ++ [x])).count true : Nat) : ℚ) / (len : ℚ) := by
        positivity
      linarith
  · intro hfull
    refine ⟨stateOf len l,
            (((lastN len (l ++ [true])).count true : Nat) : ℚ) / (len : ℚ),
            stateOf len (l ++ [true]),
            (((lastN len (l ++ [false])).count true : Nat) : ℚ) / (len : ℚ),
            stateOf len (l ++ [false]),
            runList_stateOf len hlen l, ?_, ?_, ?_⟩
    · rw [set_current_stateOf len hlen l true, if_pos hfull]
    · rw [set_current_stateOf len hlen l false, if_pos hfull]
    · have hT := (count_lastN_full len hlen l true hfull).2
      have hF := (count_lastN_full len hlen l false hfull).2
      rw [hT, hF]
      simp only [to_int]
      push_cast
      rw [add_div]
      norm_num

/-- C10 witness: length 2; the second call (after one record) returns `-1`;
the third call (after two records) returns a numeric rate; and on a full
window recording `true` returns `1/2` more than recording `false`. -/
theorem c10_first_numeric_witness :
    (([false] : List Bool).length = 2 - 1 ∧ ([false, true] : List Bool).length = 2 ∧
      2 ≤ ([false, true] : List Bool).length) ∧
    (∃ rb rb2, runList (RingBuffer.new 2) [false] = some rb ∧
        rb.set_current true = some ((-1 : ℚ), rb2)) ∧
    (∃ rb r rb2, runList (RingBuffer.new 2) [false, true] = some rb ∧
        rb.set_current true = some (r, rb2) ∧
        r = (((lastN 2 ([false, true] ++ [true])).count true : Nat) : ℚ) / (2 : ℚ) ∧
        (-1 : ℚ) < r) ∧
    (∃ rb rT rbT rF rbF, runList (RingBuffer.new 2) [false, true] = some rb ∧
        rb.set_current true = some (rT, rbT) ∧
        rb.set_current false = some (rF, rbF) ∧
        rT = rF + 1 / (2 : ℚ)) :=
  ⟨⟨by decide, by decide, by decide⟩,
   (c10_first_numeric 2 (by decide) [false] true).1 (by decide),
   (c10_first_numeric 2 (by decide) [false, true] true).2.1 (by decide),
   (c10_first_numeric 2 (by decide) [false, true] true).2.2 (by decide)⟩

/-- The `State` enum of `recloser.rs`.  Monotonic `Instant`s become `Nat`
clock ticks; the `u32` flap count becomes `Nat`. -/
inductive State where
  | Closed (rb : RingBuffer)
  | Open (deadline : Nat) (flap : Nat)
  | HalfOpen (rb : RingBuffer) (flap : Nat)
deriving Repr, DecidableEq

/-- The configuration fields of the `Recloser` struct (the atomic state cell
is passed separately as an explicit `State`, and durations are `Nat` ticks).
`open_wait_strategy` is `Option` of a pure function, as in the source
(`Option<Box<dyn WaitStrategy>>`, where `WaitStrategy::next_wait` is
`(u32, Duration) -> Duration`). -/
structure Recloser where
  threshold_closed : ℚ
  threshold_half_open : ℚ
  closed_len : Nat
  half_open_len : Nat
  open_wait : Nat
  open_wait_strategy : Option (Nat → Nat → Nat)

/-- `Recloser::call_permitted`: returns the permit decision together with
the state left in the atomic cell (in this sequential embedding the
compare-and-swap of the `Open → HalfOpen` transition always succeeds). -/
def Recloser.call_permitted (c : Recloser) (now : Nat) (s : State) : Bool × State :=
  match s with
  | .Closed _ => (true, s)
  | .HalfOpen _ _ => (true, s)
  | .Open deadline fc =>
    if deadline < now then
      (true, .HalfOpen (RingBuffer.new c.half_open_len) fc)
    else
      (false, s)

/-- `Recloser::on_success`: record a success in the current window and
possibly transition; `none` models the panic propagated from
`RingBuffer::set_current` on a zero-length window. -/
def Recloser.on_success (c : Recloser) (now : Nat) (s : State) : Option State :=
  match s with
  | .Closed rb =>
    match rb.set_current false with
    | none => none
    | some (failure_rate, rb2) =>
      if -1 < failure_rate ∧ c.threshold_closed ≤ failure_rate then
        some (.Open (now + c.open_wait) 1)
      else
        some (.Closed rb2)
  | .HalfOpen rb fc =>
    match rb.set_current false with
    | none => none
    | some (failure_rate, rb2) =>
      if -1 < failure_rate ∧ failure_rate ≤ c.threshold_half_open then
        some (.Closed (RingBuffer.new c.closed_len))
      else
        some (.HalfOpen rb2 fc)
  | .Open deadline fc => some (.Open deadline fc)

/-- `Recloser::on_error`: record a failure in the current window and
possibly transition; in `HalfOpen` the next wait is taken from the
strategy when one is configured. -/
def Recloser.on_error (c : Recloser) (now : Nat) (s : State) : Option State :=
  match s with
  | .Closed rb =>
    match rb.set_current true with
    | none => none
    | some (failure_rate, rb2) =>
      if -1 < failure_rate ∧ c.threshold_closed ≤ failure_rate then
        some (.Open (now + c.open_wait) 1)
      else
        some (.Closed rb2)
  | .HalfOpen rb fc =>
    match rb.set_current true with
    | none => none
    | some (failure_rate, rb2) =>
      if -1 < failure_rate ∧ c.threshold_half_open ≤ failure_rate then
        some (.Open
          (match c.open_wait_strategy with
           | none => now + c.open_wait
           | some strategy => now + strategy fc c.open_wait)
          (fc + 1))
      else
        some (.HalfOpen rb2 fc)
  | .Open deadline fc => some (.Open deadline fc)

/-- The `RecloserBuilder` struct of `recloser.rs`. -/
structure RecloserBuilder where
  threshold_closed : ℚ
  threshold_half_open : ℚ
  closed_len : Nat
  half_open_len : Nat
  open_wait : Nat
  open_wait_strategy : Option (Nat → Nat → Nat)

/-- `RecloserBuilder::new`, the defaults behind `Recloser::custom()`
(`open_wait` of 30 s rendered in milliseconds). -/
def RecloserBuilder.defaults : RecloserBuilder :=
  { threshold_closed := 1/2
    threshold_half_open := 1/2
    closed_len := 100
    half_open_len := 10
    open_wait := 30000
    open_wait_strategy := none }

/-- `RecloserBuilder::build`: copies the configuration and installs the
initial `Closed` state with a fresh window of length `closed_len`.  The
source performs no validation of any field. -/
def RecloserBuilder.build (b : RecloserBuilder) : Recloser × State :=
  ({ threshold_closed := b.threshold_closed
     threshold_half_open := b.threshold_half_open
     closed_len := b.closed_len
     half_open_len := b.half_open_len
     open_wait := b.open_wait
     open_wait_strategy := b.open_wait_strategy },
   .Closed (RingBuffer.new b.closed_len))

/-- The result of a wrapped call (`Result<T, Error<E>>` of `error.rs`). -/
inductive CallResult (T E : Type) where
  | ok (t : T)
  | inner (e : E)
  | rejected
deriving DecidableEq

/-- `Recloser::call_with`: check the permit, run the wrapped computation,
report the outcome to the matching hook.  The computation is represented
by its result `fres`; the returned `Bool` records whether it was invoked
at all.  `none` models a panic propagated from a hook. -/
def Recloser.call_with {T E : Type} (c : Recloser) (now : Nat) (s : State)
    (predicate : E → Bool) (fres : Except E T) : Option (CallResult T E × State × Bool) :=
  let p := c.call_permitted now s
  if p.1 = false then
    some (.rejected, p.2, false)
  else
    match fres with
    | .ok v => (c.on_success now p.2).map (fun s2 => (.ok v, s2, true))
    | .error e =>
      if predicate e then (c.on_error now p.2).map (fun s2 => (.inner e, s2, true))
      else (c.on_success now p.2).map (fun s2 => (.inner e, s2, true))

/-- The default configuration (`Recloser::custom().build()`). -/
def c0 : Recloser :=
  { threshold_closed := 1/2
    threshold_half_open := 1/2
    closed_len := 100
    half_open_len := 10
    open_wait := 30000
    open_wait_strategy := none }

/-- Configuration of the repository's `recloser_correctness` test:
both thresholds `0.5`, windows of length 2, base wait 1000 ticks. -/
def cHalf : Recloser :=
  { threshold_closed := 1/2
    threshold_half_open := 1/2
    closed_len := 2
    half_open_len := 2
    open_wait := 1000
    open_wait_strategy := none }

/-- As `cHalf` but with half-open threshold 1. -/
def cOne : Recloser :=
  { threshold_closed := 1/2
    threshold_half_open := 1
    closed_len := 2
    half_open_len := 2
    open_wait := 1000
    open_wait_strategy := none }

/-- Window of length 2 after recording two failures (both cells `true`). -/
def rbTT : RingBuffer := { len := 2, ring := [true, true], card := 2, filling := 2, index := 0 }

/-- Window of length 2 after recording a success then a failure. -/
def rbFT : RingBuffer := { len := 2, ring := [false, true], card := 1, filling := 2, index := 0 }

/-- C2 counterexample: with the state `Open(deadline = 5, flap = 1)`, a call
at `now = 5` — i.e. exactly at the deadline — is denied and publishes
nothing, because the source compares with strict `>`; the claim's "true at
the first call made at or after deadline" fails at this input. -/
theorem c2_counterexample :
    c0.call_permitted 5 (State.Open 5 1) = (false, State.Open 5 1) := by
  decide

/-- C2 (amended): in `Open(deadline, flap)`, `is_call_permitted` returns
`false` at every call made at or before `deadline` and `true` at the first
call made strictly after `deadline`, at that moment publishing
`HalfOpen(fresh RingBuffer of length half_open_len, flap)`; in `Closed`
and `HalfOpen` it always returns `true`. -/
theorem c2_permit (c : Recloser) (now : Nat) (s : State) :
    (∀ rb, s = .Closed rb → c.call_permitted now s = (true, s)) ∧
    (∀ rb fc, s = .HalfOpen rb fc → c.call_permitted now s = (true, s)) ∧
    (∀ deadline fc, s = .Open deadline fc → now ≤ deadline →
      c.call_permitted now s = (false, s)) ∧
    (∀ deadline fc, s = .Open deadline fc → deadline < now →
      c.call_permitted now s = (true, .HalfOpen (RingBuffer.new c.half_open_len) fc)) := by
  refine ⟨?_, ?_, ?_, ?_⟩
  · intro rb hs; subst hs; rfl
  · intro rb fc hs; subst hs; rfl
  · intro deadline fc hs hle; subst hs
    simp only [Recloser.call_permitted]
    rw [if_neg (by omega)]
  · intro deadline fc hs hlt; subst hs
    simp only [Recloser.call_permitted]
    rw [if_pos hlt]

/-- C2 witness: deadline 5, flap 1; a call at `now = 6` is permitted and
publishes the half-open probe window with the flap count preserved. -/
theorem c2_permit_witness :
    c0.call_permitted 6 (State.Open 5 1)
      = (true, State.HalfOpen (RingBuffer.new 10) 1) :=
  (c2_permit c0 6 (State.Open 5 1)).2.2.2 5 1 rfl (by decide)

/-- C3: along every execution, each hook that produces an `Open` state from
`Closed` sets the flap count to 1; the `Open → HalfOpen` transition of
`call_permitted` copies the flap count unchanged; the `HalfOpen → Open`
transition of `on_error` increments it by exactly 1; and `on_success` from
`HalfOpen` never produces an `Open` state (`Closed` carries no flap count,
so reaching `Closed` implicitly resets it). -/
theorem c3_flap_count (c : Recloser) (now : Nat) :
    (∀ rb deadline fc, c.on_success now (.Closed rb) = some (.Open deadline fc) → fc = 1) ∧
    (∀ rb deadline fc, c.on_error now (.Closed rb) = some (.Open deadline fc) → fc = 1) ∧
    (∀ deadline fc b rb2 fc2,
      c.call_permitted now (.Open deadline fc) = (b, .HalfOpen rb2 fc2) → fc2 = fc) ∧
    (∀ rb fc deadline2 fc2,
      c.on_error now (.HalfOpen rb fc) = some (.Open deadline2 fc2) → fc2 = fc + 1) ∧
    (∀ rb fc deadline2 fc2,
      c.on_success now (.HalfOpen rb fc) ≠ some (.Open deadline2 fc2)) := by
  refine ⟨?_, ?_, ?_, ?_, ?_⟩
  · intro rb deadline fc h
    simp only [Recloser.on_success] at h
    split at h
    · simp at h
    · split at h
      · simp only [Option.some_inj, State.Open.injEq] at h
        omega
      · simp at h
  · intro rb deadline fc h
    simp only [Recloser.on_error] at h
    split at h
    · simp at h
    · split at h
      · simp only [Option.some_inj, State.Open.injEq] at h
        omega
      · simp at h
  · intro deadline fc b rb2 fc2 h
    simp only [Recloser.call_permitted] at h
    split at h
    · simp only [Prod.mk.injEq, State.HalfOpen.injEq] at h
      exact h.2.2.symm
    · simp at h
  · intro rb fc deadline2 fc2 h
    simp only [Recloser.on_error] at h
    cases hsc : rb.set_current true with
    | none => rw [hsc] at h; simp at h
    | some p =>
      obtain ⟨r, rb2⟩ := p
      rw [hsc] at h
      simp only at h
      by_cases hg : -1 < r ∧ c.threshold_half_open ≤ r
      · rw [if_pos hg] at h
        simp only [Option.some_inj, State.Open.injEq] at h
        exact h.2.symm
      · rw [if_neg hg] at h
        simp at h
  · intro rb fc deadline2 fc2 h
    simp only [Recloser.on_success] at h
    split at h
    · simp at h
    · split at h
      · simp at h
      · simp at h

/-- C3 witness: with thresholds 1/2 and full windows, a failure in `Closed`
opens with flap 1, `call_permitted` after the deadline copies flap 1, and a
failure in the full half-open window re-opens with flap 2. -/
theorem c3_flap_count_witness :
    (cHalf.on_error 0 (State.Closed rbTT) = some (State.Open 1000 1)
      ∧ (1 : Nat) = 1) ∧
    (cHalf.call_permitted 2000 (State.Open 1000 1)
        = (true, State.HalfOpen (RingBuffer.new 2) 1)
      ∧ (1 : Nat) = 1) ∧
    (cHalf.on_error 0 (State.HalfOpen rbTT 1) = some (State.Open 1000 2)
      ∧ (2 : Nat) = 1 + 1) :=
  ⟨⟨by norm_num [cHalf, rbTT, Recloser.on_error, RingBuffer.set_current, to_int],
    (c3_flap_count cHalf 0).2.1 rbTT 1000 1
      (by norm_num [cHalf, rbTT, Recloser.on_error, RingBuffer.set_current, to_int])⟩,
   ⟨by decide, (c3_flap_count cHalf 2000).2.2.1 1000 1 true (RingBuffer.new 2) 1 (by decide)⟩,
   ⟨by norm_num [cHalf, rbTT, Recloser.on_error, RingBuffer.set_current, to_int],
    (c3_flap_count cHalf 0).2.2.2.1 rbTT 1 1000 2
      (by norm_num [cHalf, rbTT, Recloser.on_error, RingBuffer.set_current, to_int])⟩⟩

/-- As `cHalf` but with the constant wait strategy returning `d`. -/
def cWith (d : Nat) : Recloser :=
  { cHalf with open_wait_strategy := some (fun _ _ => d) }

/-- C4 counterexample: there is no `max_wait` that clamps the strategy's
result from above — a `HalfOpen → Open` trip under the constant strategy
returning `d` always publishes the deadline `now + d`, and for `d = max_wait + 1`
this differs from `now + min d max_wait` for every candidate `max_wait`. -/
theorem c4_counterexample :
    ¬ ∃ maxw : Nat, ∀ d : Nat,
      (cWith d).on_error 0 (State.HalfOpen rbTT 1)
        = some (State.Open (min d maxw) 2) := by
  rintro ⟨maxw, hall⟩
  have h1 := hall (maxw + 1)
  have h2 : (cWith (maxw + 1)).on_error 0 (State.HalfOpen rbTT 1)
      = some (State.Open (maxw + 1) 2) := by
    norm_num [cWith, cHalf, rbTT, Recloser.on_error, RingBuffer.set_current, to_int]
  rw [h2] at h1
  simp only [Option.some_inj, State.Open.injEq] at h1
  omega

/-- C4 (amended): whenever a failure recorded in `HalfOpen` trips the
breaker back to `Open`, the new deadline is `now + strategy(flap_count,
open_wait)` when a strategy is configured — the library applies no
clamping of its own (a bound such as `max_wait` must be implemented inside
the strategy) — and `now + open_wait` when none is. -/
theorem c4_next_wait (c : Recloser) (now : Nat) (rb : RingBuffer)
    (fc deadline fc2 : Nat)
    (h : c.on_error now (.HalfOpen rb fc) = some (.Open deadline fc2)) :
    (c.open_wait_strategy = none → deadline = now + c.open_wait) ∧
    (∀ f, c.open_wait_strategy = some f → deadline = now + f fc c.open_wait) := by
  simp only [Recloser.on_error] at h
  cases hsc : rb.set_current true with
  | none => rw [hsc] at h; simp at h
  | some p =>
    obtain ⟨r, rb2⟩ := p
    rw [hsc] at h
    simp only at h
    by_cases hg : -1 < r ∧ c.threshold_half_open ≤ r
    · rw [if_pos hg] at h
      simp only [Option.some_inj, State.Open.injEq] at h
      obtain ⟨hd, _⟩ := h
      constructor
      · intro hstrat; rw [hstrat] at hd; exact hd.symm
      · intro f hstrat; rw [hstrat] at hd; exact hd.symm
    · rw [if_neg hg] at h
      simp at h

/-- C4 witness: with no strategy configured the deadline published by a
half-open trip is `now + open_wait`. -/
theorem c4_next_wait_witness :
    cHalf.open_wait_strategy = none ∧ (1000 : Nat) = 0 + cHalf.open_wait :=
  ⟨rfl,
   (c4_next_wait cHalf 0 rbTT 1 1000 2
     (by norm_num [cHalf, rbTT, Recloser.on_error, RingBuffer.set_current, to_int])).1 rfl⟩

/-- C5 counterexample: `RingBuffer::new(0)` returns normally — it is the
first `set_current` call that panics (out-of-bounds ring access) — and
`RecloserBuilder::build` accepts a zero-length window, the failure
surfacing only later when the first outcome is recorded. -/
theorem c5_counterexample :
    RingBuffer.new 0 = { len := 0, ring := [], card := 0, filling := 0, index := 0 } ∧
    (RingBuffer.new 0).set_current true = none ∧
    (RingBuffer.new 0).set_current false = none ∧
    (RecloserBuilder.build { RecloserBuilder.defaults with closed_len := 0 }).2
      = State.Closed (RingBuffer.new 0) ∧
    (RecloserBuilder.build { RecloserBuilder.defaults with closed_len := 0 }).1.closed_len
      = 0 ∧
    (RecloserBuilder.build { RecloserBuilder.defaults with closed_len := 0 }).1.on_success 0
      (State.Closed (RingBuffer.new 0)) = none := by
  refine ⟨by decide, by decide, by decide, by decide, by decide, ?_⟩
  simp only [Recloser.on_success]
  have h : (RingBuffer.new 0).set_current false = none := by decide
  rw [h]

/-- C5 (amended): illegal configuration is *not* rejected at construction
time: `RingBuffer::new(0)` succeeds and every subsequent `set_current`
call panics; `RecloserBuilder::build` performs no validation at all,
returning the configuration verbatim with `Closed(RingBuffer::new(closed_len))`,
so a zero-length window only fails later, at the first recorded call. -/
theorem c5_no_validation :
    (∀ x, (RingBuffer.new 0).set_current x = none) ∧
    (∀ b : RecloserBuilder, b.build
        = ({ threshold_closed := b.threshold_closed
             threshold_half_open := b.threshold_half_open
             closed_len := b.closed_len
             half_open_len := b.half_open_len
             open_wait := b.open_wait
             open_wait_strategy := b.open_wait_strategy },
           State.Closed (RingBuffer.new b.closed_len))) ∧
    (∀ c : Recloser, ∀ now,
      c.on_success now (State.Closed (RingBuffer.new 0)) = none ∧
      c.on_error now (State.Closed (RingBuffer.new 0)) = none) := by
  refine ⟨?_, ?_, ?_⟩
  · intro x
    cases x <;> decide
  · intro b; rfl
  · intro c now
    have hf : (RingBuffer.new 0).set_current false = none := by decide
    have ht : (RingBuffer.new 0).set_current true = none := by decide
    constructor
    · simp only [Recloser.on_success]; rw [hf]
    · simp only [Recloser.on_error]; rw [ht]

/-- `rbTT` after one more record at cursor 0 (value `true`). -/
def rbTT1 : RingBuffer := { len := 2, ring := [true, true], card := 2, filling := 2, index := 1 }

/-- `rbFT` after one more record at cursor 0 (value `false`). -/
def rbFT1 : RingBuffer := { len := 2, ring := [false, true], card := 1, filling := 2, index := 1 }

theorem set_current_rate_nonneg (rb : RingBuffer) (x : Bool) (r : ℚ) (rb2 : RingBuffer)
    (hfull : rb.filling = rb.len) (h : rb.set_current x = some (r, rb2)) : 0 ≤ r := by
  simp only [RingBuffer.set_current] at h
  by_cases hidx : rb.index < rb.ring.length
  · rw [dif_pos hidx] at h
    rw [if_pos hfull] at h
    simp only [Option.some_inj, Prod.mk.injEq] at h
    rw [← h.1]
    positivity
  · rw [dif_neg hidx] at h
    simp at h

/-- C6 counterexample: with `threshold_half_open = 1/2`, the reachable
half-open window `[false, true]` (one success, one failure) records a
success whose returned rate is exactly `1/2 = threshold`, and the breaker
*closes* — refuting the claim that an equal rate re-opens on either hook. -/
theorem c6_counterexample :
    runList (RingBuffer.new 2) [false, true] = some rbFT ∧
    rbFT.set_current false = some (cHalf.threshold_half_open, rbFT1) ∧
    cHalf.threshold_half_open = 1/2 ∧
    cHalf.on_success 0 (State.HalfOpen rbFT 1) = some (State.Closed (RingBuffer.new 2)) := by
  refine ⟨by decide, ?_, rfl, ?_⟩
  · norm_num [rbFT, rbFT1, cHalf, RingBuffer.set_current, to_int]
  · norm_num [cHalf, rbFT, Recloser.on_success, RingBuffer.set_current, RingBuffer.new,
      to_int]

/-- C6 (amended): in `HalfOpen`, at a failure rate exactly equal to
`threshold_half_open` the two hooks disagree: `record_failure` re-opens
(its guard is `≥`), while `record_success` closes rather than re-opens
(its guard is `≤`). -/
theorem c6_threshold_tie (c : Recloser) (now : Nat) (rb : RingBuffer) (fc : Nat)
    (hfull : rb.filling = rb.len) :
    (∀ rb2, rb.set_current true = some (c.threshold_half_open, rb2) →
      c.on_error now (.HalfOpen rb fc)
        = some (.Open
            (match c.open_wait_strategy with
             | none => now + c.open_wait
             | some strategy => now + strategy fc c.open_wait)
            (fc + 1))) ∧
    (∀ rb2, rb.set_current false = some (c.threshold_half_open, rb2) →
      c.on_success now (.HalfOpen rb fc) = some (.Closed (RingBuffer.new c.closed_len))) := by
  constructor
  · intro rb2 hsc
    have hge : (0 : ℚ) ≤ c.threshold_half_open :=
      set_current_rate_nonneg rb true _ rb2 hfull hsc
    simp only [Recloser.on_error]
    rw [hsc]
    simp only
    rw [if_pos ⟨by linarith, le_refl _⟩]
  · intro rb2 hsc
    have hge : (0 : ℚ) ≤ c.threshold_half_open :=
      set_current_rate_nonneg rb false _ rb2 hfull hsc
    simp only [Recloser.on_success]
    rw [hsc]
    simp only
    rw [if_pos ⟨by linarith, le_refl _⟩]

/-- C6 witness: at rate exactly equal to the half-open threshold, the
failure hook re-opens (threshold 1 on window `[false, true]`) and the
success hook closes (threshold 1/2 on the same window). -/
theorem c6_threshold_tie_witness :
    cOne.on_error 0 (State.HalfOpen rbFT 1)
      = some (State.Open
          (match cOne.open_wait_strategy with
           | none => 0 + cOne.open_wait
           | some strategy => 0 + strategy 1 cOne.open_wait)
          (1 + 1)) ∧
    cHalf.on_success 0 (State.HalfOpen rbFT 1)
      = some (State.Closed (RingBuffer.new cHalf.closed_len)) :=
  ⟨(c6_threshold_tie cOne 0 rbFT 1 rfl).1 rbTT1
     (by norm_num [cOne, rbFT, rbTT1, RingBuffer.set_current, to_int]),
   (c6_threshold_tie cHalf 0 rbFT 1 rfl).2 rbFT1
     (by norm_num [cHalf, rbFT, rbFT1, RingBuffer.set_current, to_int])⟩

/-- Window of length 2 after one recorded failure (still filling). -/
def rb1 : RingBuffer := { len := 2, ring := [true, false], card := 1, filling := 1, index := 1 }

/-- C7 counterexample: from the freshly built breaker with window length 2
and threshold 1/2, two failures keep it `Closed`; the *third* call — a
success recorded by `on_success` — publishes `Open(now + open_wait, 1)`,
refuting the claim that `record_success` in `Closed` never publishes a
transition.  (This is the repository's own `test_ring_buffer_filling_on_success`
scenario.) -/
theorem c7_counterexample :
    (RecloserBuilder.build { RecloserBuilder.defaults with
        closed_len := 2, half_open_len := 2, open_wait := 1000 }).1 = cHalf ∧
    (RecloserBuilder.build { RecloserBuilder.defaults with
        closed_len := 2, half_open_len := 2, open_wait := 1000 }).2
      = State.Closed (RingBuffer.new 2) ∧
    cHalf.on_error 0 (State.Closed (RingBuffer.new 2)) = some (State.Closed rb1) ∧
    cHalf.on_error 0 (State.Closed rb1) = some (State.Closed rbTT) ∧
    cHalf.on_success 0 (State.Closed rbTT) = some (State.Open 1000 1) := by
  refine ⟨rfl, by decide, ?_, ?_, ?_⟩
  · norm_num [cHalf, rb1, Recloser.on_error, RingBuffer.new, RingBuffer.set_current, to_int]
    decide
  · norm_num [cHalf, rb1, rbTT, Recloser.on_error, RingBuffer.set_current, to_int]
  · norm_num [cHalf, rbTT, Recloser.on_success, RingBuffer.set_current, to_int]

/-- C7 (amended): `record_success` while `Closed` is not a no-op on the
state cell in general: it records the success into the window, and when
the returned rate (which includes that success) is numeric and meets
`threshold_closed` it publishes `Open(now + open_wait, 1)`; the state stays
`Closed` (with the advanced window) exactly when the rate is the sentinel
or below the threshold. -/
theorem c7_success_can_trip (c : Recloser) (now : Nat) (rb : RingBuffer) :
    (∀ r rb2, rb.set_current false = some (r, rb2) → -1 < r → c.threshold_closed ≤ r →
      c.on_success now (.Closed rb) = some (.Open (now + c.open_wait) 1)) ∧
    (∀ r rb2, rb.set_current false = some (r, rb2) → (r = -1 ∨ r < c.threshold_closed) →
      c.on_success now (.Closed rb) = some (.Closed rb2)) := by
  constructor
  · intro r rb2 hsc h1 h2
    simp only [Recloser.on_success]
    rw [hsc]
    simp only
    rw [if_pos ⟨h1, h2⟩]
  · intro r rb2 hsc hor
    simp only [Recloser.on_success]
    rw [hsc]
    simp only
    rw [if_neg ?hng]
    case hng =>
      rintro ⟨hg1, hg2⟩
      rcases hor with h | h
      · rw [h] at hg1; exact lt_irrefl _ hg1
      · exact absurd hg2 (not_le.mpr h)

/-- C7 witness: on the full all-failure window of length 2, recording a
success returns rate `1/2 ≥ threshold_closed = 1/2` and trips to `Open`;
on a still-filling window the success leaves the breaker `Closed`. -/
theorem c7_success_can_trip_witness :
    (rbTT.set_current false = some ((1 : ℚ)/2, rbFT1) ∧
      cHalf.on_success 0 (State.Closed rbTT) = some (State.Open (0 + 1000) 1)) ∧
    ((RingBuffer.new 2).set_current false
        = some ((-1 : ℚ), { len := 2, ring := [false, false], card := 0,
                            filling := 1, index := 1 }) ∧
      cHalf.on_success 0 (State.Closed (RingBuffer.new 2))
        = some (State.Closed { len := 2, ring := [false, false], card := 0,
                               filling := 1, index := 1 })) :=
  ⟨⟨by norm_num [rbTT, rbFT1, RingBuffer.set_current, to_int],
    (c7_success_can_trip cHalf 0 rbTT).1 ((1 : ℚ)/2) rbFT1
      (by norm_num [rbTT, rbFT1, RingBuffer.set_current, to_int])
      (by norm_num) (by norm_num [cHalf])⟩,
   ⟨by decide,
    (c7_success_can_trip cHalf 0 (RingBuffer.new 2)).2 (-1)
      { len := 2, ring := [false, false], card := 0, filling := 1, index := 1 }
      (by decide) (Or.inl rfl)⟩⟩

theorem set_current_not_full (rb : RingBuffer) (x : Bool)
    (hidx : rb.index < rb.ring.length) (hfill : rb.filling ≠ rb.len) :
    ∃ rb2, rb.set_current x = some ((-1 : ℚ), rb2) := by
  simp only [RingBuffer.set_current]
  rw [dif_pos hidx, if_neg hfill]
  exact ⟨_, rfl⟩

/-- C8: whenever the current window is still filling (so `set_current`
returns the sentinel `-1`), neither `on_success` nor `on_error` publishes a
state transition in `Closed` or `HalfOpen`: the variant and the flap count
are preserved for every threshold configuration, only the in-place window
advances. -/
theorem c8_sentinel_no_transition (c : Recloser) (now : Nat) (rb : RingBuffer) (fc : Nat)
    (hidx : rb.index < rb.ring.length) (hfill : rb.filling ≠ rb.len) :
    (∃ rb2, c.on_success now (.Closed rb) = some (.Closed rb2)) ∧
    (∃ rb2, c.on_error now (.Closed rb) = some (.Closed rb2)) ∧
    (∃ rb2, c.on_success now (.HalfOpen rb fc) = some (.HalfOpen rb2 fc)) ∧
    (∃ rb2, c.on_error now (.HalfOpen rb fc) = some (.HalfOpen rb2 fc)) := by
  obtain ⟨rbf, hf⟩ := set_current_not_full rb false hidx hfill
  obtain ⟨rbt, ht⟩ := set_current_not_full rb true hidx hfill
  refine ⟨⟨rbf, ?_⟩, ⟨rbt, ?_⟩, ⟨rbf, ?_⟩, ⟨rbt, ?_⟩⟩
  · simp only [Recloser.on_success]
    rw [hf]
    simp only
    rw [if_neg (fun h => lt_irrefl _ h.1)]
  · simp only [Recloser.on_error]
    rw [ht]
    simp only
    rw [if_neg (fun h => lt_irrefl _ h.1)]
  · simp only [Recloser.on_success]
    rw [hf]
    simp only
    rw [if_neg (fun h => lt_irrefl _ h.1)]
  · simp only [Recloser.on_error]
    rw [ht]
    simp only
    rw [if_neg (fun h => lt_irrefl _ h.1)]

/-- C8 witness: on a fresh window of length 2 (filling 0 of 2), all four
hook/state combinations leave the variant and flap count unchanged. -/
theorem c8_sentinel_witness :
    (∃ rb2, cHalf.on_success 0 (State.Closed (RingBuffer.new 2))
        = some (State.Closed rb2)) ∧
    (∃ rb2, cHalf.on_error 0 (State.Closed (RingBuffer.new 2))
        = some (State.Closed rb2)) ∧
    (∃ rb2, cHalf.on_success 0 (State.HalfOpen (RingBuffer.new 2) 1)
        = some (State.HalfOpen rb2 1)) ∧
    (∃ rb2, cHalf.on_error 0 (State.HalfOpen (RingBuffer.new 2) 1)
        = some (State.HalfOpen rb2 1)) :=
  c8_sentinel_no_transition cHalf 0 (RingBuffer.new 2) 1 (by decide) (by decide)

theorem call_permitted_false_snd (c : Recloser) (now : Nat) (s : State)
    (h : (c.call_permitted now s).1 = false) : (c.call_permitted now s).2 = s := by
  cases s with
  | Closed rb => simp [Recloser.call_permitted] at h
  | HalfOpen rb fc => simp [Recloser.call_permitted] at h
  | Open deadline fc =>
    simp only [Recloser.call_permitted] at h ⊢
    by_cases hd : deadline < now
    · rw [if_pos hd] at h
      simp at h
    · rw [if_neg hd]

/-- C9: the dispatch of `call_with`: a denied permit returns `Rejected`
without invoking the computation and without recording; a successful
computation records a success and returns its value; a failed computation
records a failure exactly when the predicate accepts the error and a
success otherwise, returning `Inner(e)` either way. -/
theorem c9_call_with {T E : Type} (c : Recloser) (now : Nat) (s : State)
    (pred : E → Bool) (fres : Except E T) :
    ((c.call_permitted now s).1 = false →
      c.call_with now s pred fres = some (.rejected, s, false)) ∧
    (∀ v : T, (c.call_permitted now s).1 = true → fres = .ok v →
      c.call_with now s pred fres
        = (c.on_success now (c.call_permitted now s).2).map
            (fun s2 => (.ok v, s2, true))) ∧
    (∀ e : E, (c.call_permitted now s).1 = true → fres = .error e → pred e = true →
      c.call_with now s pred fres
        = (c.on_error now (c.call_permitted now s).2).map
            (fun s2 => (.inner e, s2, true))) ∧
    (∀ e : E, (c.call_permitted now s).1 = true → fres = .error e → pred e = false →
      c.call_with now s pred fres
        = (c.on_success now (c.call_permitted now s).2).map
            (fun s2 => (.inner e, s2, true))) := by
  refine ⟨?_, ?_, ?_, ?_⟩
  · intro h
    simp only [Recloser.call_with]
    rw [if_pos h, call_permitted_false_snd c now s h]
  · intro v hp hf
    subst hf
    simp only [Recloser.call_with]
    rw [if_neg (by rw [hp]; simp)]
  · intro e hp hf hpr
    subst hf
    simp only [Recloser.call_with]
    rw [if_neg (by rw [hp]; simp)]
    rw [if_pos hpr]
  · intro e hp hf hpr
    subst hf
    simp only [Recloser.call_with]
    rw [if_neg (by rw [hp]; simp)]
    rw [if_neg (by rw [hpr]; simp)]

/-- C9 witness: a breaker that is `Open` with an unexpired deadline rejects
the call: the computation is not invoked and no record is made. -/
theorem c9_call_with_witness :
    (c0.call_permitted 0 (State.Open 5 1)).1 = false ∧
    c0.call_with 0 (State.Open 5 1) (fun _ => true) (Except.error 7 : Except Nat Nat)
      = some (CallResult.rejected, State.Open 5 1, false) :=
  ⟨by decide,
   (c9_call_with c0 0 (State.Open 5 1) (fun _ => true)
     (Except.error 7 : Except Nat Nat)).1 (by decide)⟩
